import Mathlib

/-!
# Verification of the cosmo_surface_viewer mesh/color core

A shallow embedding of the mesh-construction and color-mapping pipeline of
the `cosmo_surface_viewer` package (`mesh.py` and the per-file pipeline of
`core.py`), together with proofs about it.

Modelling conventions:
* 3-D coordinates, areas and distances are real numbers; `np.linalg.norm`
  is the exact Euclidean norm and `scipy.spatial.cKDTree.query_ball_point`
  is the exact closed-ball query (the spec requires the index to be exact).
* `np.argsort` over the candidate distances is a deterministic sort by
  distance; ties are resolved by the enumeration order of the candidates
  (the spec leaves the tie-break implementation-defined but deterministic).
* Scalar color values are rationals, so that the color mapper is executable;
  the float literal `1e-12` is the exact rational `1 / 10^12`.
* Calls that make numpy raise (reductions or percentiles over an empty
  array) are modelled by `Option`: `none` is the raised error.
-/

namespace CosmoSurfaceViewer

open Classical

/-- A 3-D sample point (double-precision coordinates modelled as reals). -/
abbrev Pt : Type := ℝ × ℝ × ℝ

/-- Euclidean distance of two 3-D points (`np.linalg.norm(points[i] - points[j])`). -/
noncomputable def dist3 (p q : Pt) : ℝ :=
  Real.sqrt ((p.1 - q.1) ^ 2 + (p.2.1 - q.2.1) ^ 2 + (p.2.2 - q.2.2) ^ 2)

/-- Effective patch radius `r_i = sqrt(area_i / pi)` (mesh.py lines 47, 51, 56). -/
noncomputable def patchRadius (area : ℝ) : ℝ := Real.sqrt (area / Real.pi)

/-- Indexing `points[i]`, with the out-of-range default never reached under the
    equal-length preconditions. -/
def ptAt (points : List Pt) (i : ℕ) : Pt := points.getD i (0, 0, 0)

/-- Indexing `surface_areas[i]`. -/
def areaAt (areas : List ℝ) (i : ℕ) : ℝ := areas.getD i 0

/-- Indexing `sphere_owners[i]`. -/
def ownerAt (owners : List ℤ) (i : ℕ) : ℤ := owners.getD i 0

/-- The normalized triple `tuple(sorted([i, j, k]))`: the three ids in ascending order. -/
def sort3 (i j k : ℕ) : ℕ × ℕ × ℕ :=
  if i ≤ j then
    if j ≤ k then (i, j, k)
    else if i ≤ k then (i, k, j)
    else (k, i, j)
  else
    if i ≤ k then (j, i, k)
    else if j ≤ k then (j, k, i)
    else (k, j, i)

/-- The raw neighbor candidates of vertex `i` (mesh.py lines 26-28): every id
    within `neighbor_radius` of `points[i]` — the point itself included, as
    `query_ball_point` returns it — filtered to the ids sharing `i`'s owner. -/
noncomputable def neighborCands (points : List Pt) (sphere_owners : List ℤ)
    (neighbor_radius : ℝ) (i : ℕ) : List ℕ :=
  (List.range points.length).filter
    (fun j => decide (dist3 (ptAt points i) (ptAt points j) ≤ neighbor_radius ∧
                      ownerAt sphere_owners j = ownerAt sphere_owners i))

/-- The `NeighborSet(i)` of mesh.py lines 24-33: the owner-filtered radius query,
    truncated to the `max_neighbors` candidates closest to `points[i]` when
    there are more (`np.argsort` of the distances modelled as a deterministic
    sort by distance). -/
noncomputable def neighborsOf (points : List Pt) (sphere_owners : List ℤ)
    (neighbor_radius : ℝ) (max_neighbors : ℕ) (i : ℕ) : List ℕ :=
  let cands := neighborCands points sphere_owners neighbor_radius i
  if max_neighbors < cands.length then
    (@List.insertionSort ℕ
      (fun a b => dist3 (ptAt points i) (ptAt points a) ≤
                  dist3 (ptAt points i) (ptAt points b))
      (Classical.decRel _) cands).take max_neighbors
  else cands

/-- The mesh builder `build_faces` (mesh.py lines 10-68), as the collection of normalized
    triples inserted into `faces_set`: for every vertex `i`, every
    `j ∈ NeighborSet(i)` with `j ≠ i` and every `k ∈ NeighborSet(j)` with
    `k ≠ i`, acceptance rule A inserts `sorted([i,j,k])` and acceptance
    rule B inserts `sorted([j,k,i])`. The Python `set` deduplicates;
    membership in this list is membership in `faces_set`. -/
noncomputable def build_faces (points : List Pt) (surface_areas : List ℝ)
    (sphere_owners : List ℤ) (neighbor_radius : ℝ) (max_neighbors : ℕ)
    (neighbors_threshold : ℝ) : List (ℕ × ℕ × ℕ) :=
  (List.range points.length).flatMap (fun i =>
    (neighborsOf points sphere_owners neighbor_radius max_neighbors i).flatMap (fun j =>
      if i = j then [] else
      (neighborsOf points sphere_owners neighbor_radius max_neighbors j).flatMap (fun k =>
        if i = k then [] else
        (if dist3 (ptAt points i) (ptAt points j) <
              neighbors_threshold *
                (patchRadius (areaAt surface_areas i) + patchRadius (areaAt surface_areas j)) ∧
            dist3 (ptAt points i) (ptAt points k) <
              neighbors_threshold *
                (patchRadius (areaAt surface_areas i) + patchRadius (areaAt surface_areas k))
         then [sort3 i j k] else []) ++
        (if dist3 (ptAt points j) (ptAt points k) <
              neighbors_threshold *
                (patchRadius (areaAt surface_areas j) + patchRadius (areaAt surface_areas k)) ∧
            dist3 (ptAt points i) (ptAt points k) <
              neighbors_threshold *
                (patchRadius (areaAt surface_areas i) + patchRadius (areaAt surface_areas k))
         then [sort3 j k i] else []))))

/-- The shape of `np.array(list(faces_set), dtype=int)` (mesh.py line 66): an empty list of
    triples yields a one-dimensional empty array of shape `(0,)`; a non-empty
    list of `n` distinct 3-tuples yields shape `(n, 3)`. -/
def npShapeOfTriples (l : List (ℕ × ℕ × ℕ)) : List ℕ :=
  if l = [] then [0] else [l.dedup.length, 3]

/-- A numpy array of scalars: its shape and its row-major flattened entries. -/
structure NDArray where
  shape : List ℕ
  data : List ℚ

/-- A matplotlib colormap: position in `[0,1]` to an RGB triple of channel
    values in `[0,1]` (the alpha channel is dropped by `[:, :3]`). -/
abbrev Colormap : Type := ℚ → ℚ × ℚ × ℚ

/-- Matplotlib's `gray` colormap: the linear grayscale ramp. -/
def grayColormap : Colormap := fun x => (x, x, x)

/-- Matplotlib colormap lookup clamps out-of-range positions: values below 0
    map to the under color and values above 1 to the over color, which default
    to the two endpoints of the scale. -/
def clamp01 (x : ℚ) : ℚ := max 0 (min 1 x)

/-- C-style float-to-integer conversion: truncation toward zero. -/
def truncTowardZero (q : ℚ) : ℤ := if 0 ≤ q then ⌊q⌋ else ⌈q⌉

/-- One channel of `(x * 255).astype(np.uint8)` (mesh.py line 100): scale by
    255, truncate toward zero, store in an 8-bit unsigned integer. Colormap
    channels lie in `[0,1]`, so the `% 256` wrap never moves an actual value. -/
def quantizeChannel (c : ℚ) : ℕ := (truncTowardZero (c * 255) % 256).toNat

/-- The three RGB channels of one quantized color. -/
def quantizeTriple (c : ℚ × ℚ × ℚ) : ℕ × ℕ × ℕ :=
  (quantizeChannel c.1, quantizeChannel c.2.1, quantizeChannel c.2.2)

/-- Models `np.min` over a non-empty array (the `[]` case is unreachable: callers
    return `none` first, as numpy raises on an empty reduction). -/
def listMin : List ℚ → ℚ
  | [] => 0
  | x :: xs => xs.foldl min x

/-- Models `np.max` over a non-empty array. -/
def listMax : List ℚ → ℚ
  | [] => 0
  | x :: xs => xs.foldl max x

/-- Models `np.percentile` with the default linear interpolation: the value at
    fractional rank `q/100 * (n-1)` of the sorted data (the `[]` case is
    unreachable: callers return `none` first, as numpy raises). -/
def percentile (l : List ℚ) (q : ℚ) : ℚ :=
  let s := List.insertionSort (fun a b : ℚ => a ≤ b) l
  let pos : ℚ := q / 100 * ((l.length : ℚ) - 1)
  let lo := s.getD (⌊pos⌋).toNat 0
  let hi := s.getD (⌈pos⌉).toNat 0
  lo + (pos - (⌊pos⌋ : ℚ)) * (hi - lo)

/-- The bound-resolution phase of `map_colors` (mesh.py lines 85-97), in the
    source order: robust percentiles when enabled and a bound is unset, then
    plain min/max for any bound still unset, then the `1e-12` perturbation of
    `vmax` when the resolved bounds coincide. `none` models the numpy error
    raised by a percentile or min/max reduction over an empty array; the float
    literal `1e-12` is the exact rational. -/
def resolveBounds (vals : List ℚ) (vmin0 vmax0 : Option ℚ) (robust : Bool)
    (robust_pct : ℚ) : Option (ℚ × ℚ) :=
  let step1 : Option (Option ℚ × Option ℚ) :=
    if robust = true ∧ (vmin0.isNone ∨ vmax0.isNone) then
      if vals = [] then none
      else some (some (vmin0.getD (percentile vals robust_pct)),
                 some (vmax0.getD (percentile vals (100 - robust_pct))))
    else some (vmin0, vmax0)
  match step1 with
  | none => none
  | some (w1, w2) =>
    match (match w1 with
           | some v => some v
           | none => if vals = [] then none else some (listMin vals)) with
    | none => none
    | some vmin =>
      match (match w2 with
             | some v => some v
             | none => if vals = [] then none else some (listMax vals)) with
      | none => none
      | some vm => some (vmin, if vmin = vm then vmin + 1 / 10 ^ 12 else vm)

/-- The color mapper `map_colors` (mesh.py lines 71-101). `np.asarray` followed by
    `reshape(-1)` for non-1-D input flattens to the row-major entries; the
    bounds are resolved per `resolveBounds`; each value is linearly
    normalized against them (`plt.Normalize`), looked up in the colormap
    (which clamps its argument), and quantized to three 8-bit channels. -/
def map_colors (cm : Colormap) (values : NDArray) (vmin0 vmax0 : Option ℚ)
    (robust : Bool) (robust_pct : ℚ) : Option (List (ℕ × ℕ × ℕ)) :=
  let vals := values.data
  match resolveBounds vals vmin0 vmax0 robust robust_pct with
  | none => none
  | some (vmin, vmax) =>
    some (vals.map (fun v =>
      quantizeTriple (cm (clamp01 ((v - vmin) / (vmax - vmin))))))

/-- The pipeline stages of one iteration of the per-file loop of
    `process_all` (core.py lines 69-89). -/
inductive PipelineStage where
  | buildFacesStage
  | mapColorsStage
  | writeVrmlStage
deriving DecidableEq

/-- The conversion constant `ANGSTROM_PER_BOHR = 0.529177` (core.py line 26). -/
def ANGSTROM_PER_BOHR : ℚ := 529177 / 1000000

/-- Python `str.lower()`. -/
def pyLower (s : String) : String := ⟨s.data.map Char.toLower⟩

/-- The `color_by` dispatch of `process_all` (core.py lines 78-87): the
    lower-cased selector picks the potentials, the charges, or the derived
    surface charge `charges * areas / ANGSTROM_PER_BOHR**2`; anything else is
    the `ValueError` case, modelled as `none`. -/
def selectValues (color_by : String) (charges potentials areas : List ℚ) :
    Option (List ℚ) :=
  let mode := pyLower color_by
  if mode = "potential" ∨ mode = "potentials" then some potentials
  else if mode = "charge" ∨ mode = "charges" then some charges
  else if mode = "surface-charge" ∨ mode = "surface_charge" ∨ mode = "sigma" then
    some (List.zipWith (fun c a => c * (a / ANGSTROM_PER_BOHR ^ 2)) charges areas)
  else none

/-- Coordinates parsed from text are rationals; geometry works over reals. -/
def ratPt (p : ℚ × ℚ × ℚ) : Pt := ((p.1 : ℝ), (p.2.1 : ℝ), (p.2.2 : ℝ))

/-- One iteration of the per-file loop of `process_all` (core.py lines 69-89),
    from the parsed arrays on: `build_faces` runs first, then the `color_by`
    dispatch (whose `ValueError` aborts the iteration), then `map_colors`,
    then the VRML serialization. The first component records the stages that
    ran, in order; the second is the outcome. File discovery, parsing and
    rendering are the out-of-scope collaborators around this body. -/
noncomputable def processOne (color_by : String) (neighbor_radius : ℚ)
    (max_neighbors : ℕ) (neighbors_threshold : ℚ) (vmin vmax : Option ℚ)
    (cm : Colormap) (robust : Bool) (robust_pct : ℚ)
    (points : List (ℚ × ℚ × ℚ)) (charges potentials areas : List ℚ)
    (owners : List ℤ) : List PipelineStage × Except String Unit :=
  let _faces := build_faces (points.map ratPt) (areas.map (fun a => (a : ℝ)))
    owners (neighbor_radius : ℝ) max_neighbors (neighbors_threshold : ℝ)
  match selectValues color_by charges potentials areas with
  | none => ([PipelineStage.buildFacesStage],
             Except.error ("Unsupported color_by option: " ++ color_by))
  | some values =>
    match map_colors cm ⟨[values.length], values⟩ vmin vmax robust robust_pct with
    | none => ([PipelineStage.buildFacesStage, PipelineStage.mapColorsStage],
               Except.error "zero-size array to reduction operation")
    | some _ => ([PipelineStage.buildFacesStage, PipelineStage.mapColorsStage,
                  PipelineStage.writeVrmlStage], Except.ok ())

/-! ## Basic facts about the embedded mesh builder -/

lemma dist3_self (p : Pt) : dist3 p p = 0 := by
  simp [dist3]

lemma dist3_symm (p q : Pt) : dist3 p q = dist3 q p := by
  unfold dist3
  congr 1
  ring

lemma dist3_nonneg (p q : Pt) : 0 ≤ dist3 p q := Real.sqrt_nonneg _

lemma mem_neighborCands {points : List Pt} {owners : List ℤ} {rad : ℝ}
    {i j : ℕ} :
    j ∈ neighborCands points owners rad i ↔
      j < points.length ∧ dist3 (ptAt points i) (ptAt points j) ≤ rad ∧
        ownerAt owners j = ownerAt owners i := by
  simp [neighborCands, List.mem_filter, List.mem_range, decide_eq_true_eq,
    and_assoc]

lemma neighborsOf_eq_cands {points : List Pt} {owners : List ℤ} {rad : ℝ}
    {maxN : ℕ} (i : ℕ) (h : points.length ≤ maxN) :
    neighborsOf points owners rad maxN i = neighborCands points owners rad i := by
  unfold neighborsOf
  rw [if_neg]
  push_neg
  calc (neighborCands points owners rad i).length
      ≤ (List.range points.length).length := List.length_filter_le _ _
    _ = points.length := List.length_range _
    _ ≤ maxN := h

lemma neighborsOf_subset_cands {points : List Pt} {owners : List ℤ} {rad : ℝ}
    {maxN i j : ℕ} (h : j ∈ neighborsOf points owners rad maxN i) :
    j ∈ neighborCands points owners rad i := by
  unfold neighborsOf at h
  by_cases hc : maxN <
      (neighborCands points owners rad i).length
  · rw [if_pos hc] at h
    have h2 := List.take_subset _ _ h
    exact (List.mem_insertionSort _).mp h2
  · rwa [if_neg hc] at h

/-- Under a fixed ordering of the candidates by distance, a smaller cap keeps
    a prefix of what a larger cap keeps: neighbor sets only grow with
    `max_neighbors`. -/
lemma neighborsOf_mono {points : List Pt} {owners : List ℤ} {rad : ℝ}
    {m m' i j : ℕ} (hm : m ≤ m')
    (h : j ∈ neighborsOf points owners rad m i) :
    j ∈ neighborsOf points owners rad m' i := by
  unfold neighborsOf at h ⊢
  set cands := neighborCands points owners rad i with hcands
  by_cases h1 : m < cands.length
  · rw [if_pos h1] at h
    by_cases h2 : m' < cands.length
    · rw [if_pos h2]
      set s := @List.insertionSort ℕ
        (fun a b => dist3 (ptAt points i) (ptAt points a) ≤
                    dist3 (ptAt points i) (ptAt points b))
        (Classical.decRel _) cands with hs
      have : List.take m s = List.take m (List.take m' s) := by
        rw [List.take_take, min_eq_left hm]
      rw [this] at h
      exact List.take_subset _ _ h
    · rw [if_neg h2]
      have h3 := List.take_subset _ _ h
      exact (List.mem_insertionSort _).mp h3
  · rw [if_neg h1] at h
    have h2 : ¬ m' < cands.length := by omega
    rwa [if_neg h2]

/-- Membership in the face list of `build_faces`, unfolded: some vertex `i`,
    some `j` in `NeighborSet(i)` other than `i`, some `k` in `NeighborSet(j)`
    other than `i`, and acceptance rule A or B firing on the triple. -/
lemma mem_build_faces {points : List Pt} {areas : List ℝ} {owners : List ℤ}
    {rad thr : ℝ} {maxN : ℕ} {t : ℕ × ℕ × ℕ} :
    t ∈ build_faces points areas owners rad maxN thr ↔
      ∃ i, i < points.length ∧
        ∃ j, j ∈ neighborsOf points owners rad maxN i ∧ ¬ i = j ∧
          ∃ k, k ∈ neighborsOf points owners rad maxN j ∧ ¬ i = k ∧
            (((dist3 (ptAt points i) (ptAt points j) <
                 thr * (patchRadius (areaAt areas i) + patchRadius (areaAt areas j)) ∧
               dist3 (ptAt points i) (ptAt points k) <
                 thr * (patchRadius (areaAt areas i) + patchRadius (areaAt areas k))) ∧
              t = sort3 i j k) ∨
             ((dist3 (ptAt points j) (ptAt points k) <
                 thr * (patchRadius (areaAt areas j) + patchRadius (areaAt areas k)) ∧
               dist3 (ptAt points i) (ptAt points k) <
                 thr * (patchRadius (areaAt areas i) + patchRadius (areaAt areas k))) ∧
              t = sort3 j k i)) := by
  simp only [build_faces, List.mem_flatMap, List.mem_range,
    List.mem_ite_nil_left, List.mem_append, List.mem_ite_nil_right,
    List.mem_singleton]

/-! ## Concrete inputs used by the test-style claims -/

/-- The three points of the spec's concrete scenario. -/
noncomputable def cpts3 : List Pt := [(0, 0, 0), (1, 0, 0), (0, 1, 0)]

/-- Their areas: all `10.0`. -/
noncomputable def careas3 : List ℝ := [10, 10, 10]

/-- Their owners: all `1`. -/
def cowners3 : List ℤ := [1, 1, 1]

/-- Two of the three points, for the degenerate-face evaluation. -/
noncomputable def cpts2 : List Pt := [(0, 0, 0), (1, 0, 0)]

noncomputable def careas2 : List ℝ := [10, 10]

def cowners2 : List ℤ := [1, 1]

lemma dist3_X0_X1 : dist3 ((0:ℝ), 0, 0) ((1:ℝ), 0, 0) = 1 := by
  unfold dist3
  norm_num

lemma dist3_X0_X2 : dist3 ((0:ℝ), 0, 0) ((0:ℝ), 1, 0) = 1 := by
  unfold dist3
  norm_num

lemma dist3_X1_X2 : dist3 ((1:ℝ), 0, 0) ((0:ℝ), 1, 0) = Real.sqrt 2 := by
  unfold dist3
  norm_num

lemma sqrt_two_le_two : Real.sqrt 2 ≤ 2 := by
  nlinarith [Real.sq_sqrt (show (0:ℝ) ≤ 2 by norm_num), Real.sqrt_nonneg 2]

lemma one_le_patchRadius_ten : 1 ≤ patchRadius 10 := by
  unfold patchRadius
  rw [Real.one_le_sqrt, le_div_iff₀ Real.pi_pos]
  nlinarith [Real.pi_le_four]

lemma one_lt_accept_ten : (1:ℝ) < 2 * (patchRadius 10 + patchRadius 10) := by
  nlinarith [one_le_patchRadius_ten]

lemma sqrt_two_lt_accept_ten :
    Real.sqrt 2 < 2 * (patchRadius 10 + patchRadius 10) := by
  nlinarith [one_le_patchRadius_ten, sqrt_two_le_two]

/-- In the concrete scenario every vertex keeps all three ids as neighbors. -/
lemma neighborsOf_cpts3 (i : ℕ) :
    neighborsOf cpts3 cowners3 2 10 i = neighborCands cpts3 cowners3 2 i := by
  refine neighborsOf_eq_cands i ?_
  simp [cpts3]

lemma mem_neighborsOf_cpts3_01 : 1 ∈ neighborsOf cpts3 cowners3 2 10 0 := by
  rw [neighborsOf_cpts3, mem_neighborCands]
  refine ⟨by simp [cpts3], ?_, by decide⟩
  show dist3 ((0:ℝ), 0, 0) ((1:ℝ), 0, 0) ≤ 2
  rw [dist3_X0_X1]
  norm_num

lemma mem_neighborsOf_cpts3_12 : 2 ∈ neighborsOf cpts3 cowners3 2 10 1 := by
  rw [neighborsOf_cpts3, mem_neighborCands]
  refine ⟨by simp [cpts3], ?_, by decide⟩
  show dist3 ((1:ℝ), 0, 0) ((0:ℝ), 1, 0) ≤ 2
  rw [dist3_X1_X2]
  exact sqrt_two_le_two

/-- Shared evaluation: the triple `(0,1,2)` is produced for the spec's
    concrete three-point scenario. -/
lemma tri_mem_concrete :
    ((0, 1, 2) : ℕ × ℕ × ℕ) ∈ build_faces cpts3 careas3 cowners3 2 10 2 := by
  rw [mem_build_faces]
  refine ⟨0, by simp [cpts3], 1, mem_neighborsOf_cpts3_01, by decide, 2,
    mem_neighborsOf_cpts3_12, by decide, Or.inl ⟨⟨?_, ?_⟩, by decide⟩⟩
  · show dist3 ((0:ℝ), 0, 0) ((1:ℝ), 0, 0) <
      2 * (patchRadius 10 + patchRadius 10)
    rw [dist3_X0_X1]
    exact one_lt_accept_ten
  · show dist3 ((0:ℝ), 0, 0) ((0:ℝ), 1, 0) <
      2 * (patchRadius 10 + patchRadius 10)
    rw [dist3_X0_X2]
    exact one_lt_accept_ten

/-- Shared evaluation: on the two-point input, the degenerate triple
    `(0,1,1)` is produced — `k` ranges over `NeighborSet(j)`, which contains
    `j` itself, and only `k == i` is skipped. -/
lemma degenerate_mem_concrete :
    ((0, 1, 1) : ℕ × ℕ × ℕ) ∈ build_faces cpts2 careas2 cowners2 2 10 2 := by
  rw [mem_build_faces]
  have hd : dist3 (ptAt cpts2 0) (ptAt cpts2 1) <
      2 * (patchRadius (areaAt careas2 0) + patchRadius (areaAt careas2 1)) := by
    show dist3 ((0:ℝ), 0, 0) ((1:ℝ), 0, 0) <
      2 * (patchRadius 10 + patchRadius 10)
    rw [dist3_X0_X1]
    exact one_lt_accept_ten
  refine ⟨0, by simp [cpts2], 1, ?_, by decide, 1, ?_, by decide,
    Or.inl ⟨⟨hd, hd⟩, by decide⟩⟩
  · rw [neighborsOf_eq_cands 0 (by simp [cpts2]), mem_neighborCands]
    refine ⟨by simp [cpts2], ?_, by decide⟩
    show dist3 ((0:ℝ), 0, 0) ((1:ℝ), 0, 0) ≤ 2
    rw [dist3_X0_X1]
    norm_num
  · rw [neighborsOf_eq_cands 1 (by simp [cpts2]), mem_neighborCands]
    refine ⟨by simp [cpts2], ?_, by decide⟩
    show dist3 ((1:ℝ), 0, 0) ((1:ℝ), 0, 0) ≤ 2
    rw [dist3_self]
    norm_num

/-! ## Permutation structure of normalized triples -/

lemma sort3_comp_mem (i j k : ℕ) :
    ((sort3 i j k).1 = i ∨ (sort3 i j k).1 = j ∨ (sort3 i j k).1 = k) ∧
    ((sort3 i j k).2.1 = i ∨ (sort3 i j k).2.1 = j ∨ (sort3 i j k).2.1 = k) ∧
    ((sort3 i j k).2.2 = i ∨ (sort3 i j k).2.2 = j ∨ (sort3 i j k).2.2 = k) := by
  unfold sort3
  split_ifs <;> simp

/-! ## Claim theorems for the mesh builder -/

/-- Claim C7: on the three points `(0,0,0)`, `(1,0,0)`, `(0,1,0)` with areas
    `10.0` and owner `1`, `build_faces` with `neighbor_radius=2.0`,
    `max_neighbors=10`, `neighbors_threshold=2.0` returns a FaceSet containing
    the triple `{0,1,2}`. -/
theorem build_faces_concrete_triangle :
    ((0, 1, 2) : ℕ × ℕ × ℕ) ∈ build_faces cpts3 careas3 cowners3 2 10 2 :=
  tri_mem_concrete

/-- Claim C1 (failing-input evaluation): on two points `(0,0,0)`, `(1,0,0)`
    with areas `10.0`, owner `1`, and the same parameters, `build_faces`
    produces the triple `(0,1,1)`, whose last two vertex ids coincide: the
    inner loop ranges over `NeighborSet(j)`, which contains `j` itself, and
    only `k == i` is skipped, so every accepted edge `i-j` also inserts the
    degenerate triple `sorted([i,j,j])`. -/
theorem build_faces_emits_repeated_id_face :
    ((0, 1, 1) : ℕ × ℕ × ℕ) ∈ build_faces cpts2 careas2 cowners2 2 10 2 ∧
    ((0, 1, 1) : ℕ × ℕ × ℕ).2.1 = ((0, 1, 1) : ℕ × ℕ × ℕ).2.2 :=
  ⟨degenerate_mem_concrete, rfl⟩

/-- Claim C5: with all other inputs fixed, every triple produced at cap `m`
    is also produced at any cap `m' ≥ m`: neighbor sets only grow with
    `max_neighbors`, and the acceptance conditions do not depend on the cap. -/
theorem build_faces_monotone_in_cap (points : List Pt) (areas : List ℝ)
    (owners : List ℤ) (rad thr : ℝ) (m m' : ℕ) (hm : m ≤ m') (t : ℕ × ℕ × ℕ)
    (ht : t ∈ build_faces points areas owners rad m thr) :
    t ∈ build_faces points areas owners rad m' thr := by
  rw [mem_build_faces] at ht ⊢
  obtain ⟨i, hi, j, hj, hij, k, hk, hik, hcase⟩ := ht
  exact ⟨i, hi, j, neighborsOf_mono hm hj, hij, k, neighborsOf_mono hm hk,
    hik, hcase⟩

/-- Witness for C5 at the concrete scenario: `(0,1,2)` survives raising the
    cap from 10 to 11. -/
theorem build_faces_monotone_in_cap_witness :
    ((0, 1, 2) : ℕ × ℕ × ℕ) ∈ build_faces cpts3 careas3 cowners3 2 11 2 :=
  build_faces_monotone_in_cap cpts3 careas3 cowners3 2 2 10 11 (by norm_num)
    (0, 1, 2) tri_mem_concrete

/-- Claim C6: for every valid input, all three vertex ids of every produced
    face carry the same owner — `j` shares `i`'s owner and `k` shares `j`'s
    owner by the neighbor filter, and the face is a permutation of
    `(i, j, k)` — so two points with different owners never co-occur in a
    face. -/
theorem build_faces_faces_share_owner (points : List Pt) (areas : List ℝ)
    (owners : List ℤ) (rad thr : ℝ) (maxN : ℕ)
    (_hlen1 : areas.length = points.length)
    (_hlen2 : owners.length = points.length)
    (_hrad : 0 < rad) (_hmax : 1 ≤ maxN) (_hthr : 0 < thr) (t : ℕ × ℕ × ℕ)
    (ht : t ∈ build_faces points areas owners rad maxN thr) :
    ownerAt owners t.1 = ownerAt owners t.2.1 ∧
    ownerAt owners t.2.1 = ownerAt owners t.2.2 := by
  rw [mem_build_faces] at ht
  obtain ⟨i, hi, j, hj, hij, k, hk, hik, hcase⟩ := ht
  have hoj : ownerAt owners j = ownerAt owners i :=
    (mem_neighborCands.mp (neighborsOf_subset_cands hj)).2.2
  have hok : ownerAt owners k = ownerAt owners j :=
    (mem_neighborCands.mp (neighborsOf_subset_cands hk)).2.2
  have key : ∀ a b : ℕ, (a = i ∨ a = j ∨ a = k) → (b = i ∨ b = j ∨ b = k) →
      ownerAt owners a = ownerAt owners b := by
    rintro a b (rfl | rfl | rfl) (rfl | rfl | rfl) <;> simp [hoj, hok]
  rcases hcase with ⟨_, hts⟩ | ⟨_, hts⟩
  · obtain ⟨ha, hb, hc⟩ := sort3_comp_mem i j k
    rw [hts]
    exact ⟨key _ _ ha hb, key _ _ hb hc⟩
  · obtain ⟨ha, hb, hc⟩ := sort3_comp_mem j k i
    rw [hts]
    have flip : ∀ a : ℕ, (a = j ∨ a = k ∨ a = i) → (a = i ∨ a = j ∨ a = k) := by
      rintro a (h | h | h)
      · exact Or.inr (Or.inl h)
      · exact Or.inr (Or.inr h)
      · exact Or.inl h
    exact ⟨key _ _ (flip _ ha) (flip _ hb), key _ _ (flip _ hb) (flip _ hc)⟩

/-- Witness for C6 at the concrete scenario and the face `(0,1,2)`. -/
theorem build_faces_faces_share_owner_witness :
    ownerAt cowners3 0 = ownerAt cowners3 1 ∧
    ownerAt cowners3 1 = ownerAt cowners3 2 :=
  build_faces_faces_share_owner cpts3 careas3 cowners3 2 2 10
    (by simp [careas3, cpts3]) (by simp [cowners3, cpts3]) (by norm_num)
    (by norm_num) (by norm_num) (0, 1, 2) tri_mem_concrete

/-- Claim C10: whenever `build_faces` accepts nothing, the conversion
    `np.array(list(faces_set), dtype=int)` yields a one-dimensional empty
    array of shape `(0,)`, not a two-dimensional array of shape `(0,3)`. -/
theorem build_faces_empty_shape (points : List Pt) (areas : List ℝ)
    (owners : List ℤ) (rad thr : ℝ) (maxN : ℕ)
    (h : build_faces points areas owners rad maxN thr = []) :
    npShapeOfTriples (build_faces points areas owners rad maxN thr) = [0] ∧
    npShapeOfTriples (build_faces points areas owners rad maxN thr) ≠ [0, 3] := by
  rw [h]
  exact ⟨rfl, by decide⟩

/-- Witness for C10 on the empty point cloud with the default parameters. -/
theorem build_faces_empty_shape_witness :
    npShapeOfTriples (build_faces [] [] [] 1 15 (3/2)) = [0] ∧
    npShapeOfTriples (build_faces [] [] [] 1 15 (3/2)) ≠ [0, 3] :=
  build_faces_empty_shape [] [] [] 1 (3/2) 15 rfl

/-! ## The equilateral threshold boundary (C8) -/

/-- Claim C8, amended: for three points at pairwise distance `s` with equal
    areas and owners, and hence equal patch radii `r`, provided the points
    are within `neighbor_radius` of each other and the cap keeps all three
    neighbors, the triangle is accepted iff `neighbors_threshold * 2r > s`
    strictly (each acceptance path tests exactly this on its two edges). -/
theorem build_faces_equilateral_iff (p0 p1 p2 : Pt) (a : ℝ) (w : ℤ) (s rad thr : ℝ)
    (maxN : ℕ) (h01 : dist3 p0 p1 = s) (h02 : dist3 p0 p2 = s)
    (h12 : dist3 p1 p2 = s) (hrad : s ≤ rad) (hmax : 3 ≤ maxN) :
    (((0, 1, 2) : ℕ × ℕ × ℕ) ∈
        build_faces [p0, p1, p2] [a, a, a] [w, w, w] rad maxN thr) ↔
      s < thr * (2 * patchRadius a) := by
  have hs0 : 0 ≤ s := h01 ▸ dist3_nonneg p0 p1
  have hrad0 : 0 ≤ rad := le_trans hs0 hrad
  have dall : ∀ x y : ℕ, x < 3 → y < 3 → ¬ x = y →
      dist3 (ptAt [p0, p1, p2] x) (ptAt [p0, p1, p2] y) = s := by
    intro x y hx hy hxy
    interval_cases x <;> interval_cases y
    · exact absurd rfl hxy
    · exact h01
    · exact h02
    · exact (dist3_symm p1 p0).trans h01
    · exact absurd rfl hxy
    · exact h12
    · exact (dist3_symm p2 p0).trans h02
    · exact (dist3_symm p2 p1).trans h12
    · exact absurd rfl hxy
  have aall : ∀ x : ℕ, x < 3 → areaAt [a, a, a] x = a := by
    intro x hx
    interval_cases x <;> rfl
  have oall : ∀ x : ℕ, x < 3 → ownerAt [w, w, w] x = w := by
    intro x hx
    interval_cases x <;> rfl
  have hmem : ∀ x y : ℕ, x < 3 → y < 3 →
      y ∈ neighborsOf [p0, p1, p2] [w, w, w] rad maxN x := by
    intro x y hx hy
    rw [neighborsOf_eq_cands x (by simpa using hmax), mem_neighborCands]
    refine ⟨by simpa using hy, ?_, by rw [oall y hy, oall x hx]⟩
    by_cases hxy : x = y
    · subst hxy
      rw [dist3_self]
      exact hrad0
    · rw [dall x y hx hy hxy]
      exact hrad
  constructor
  · intro ht
    rw [mem_build_faces] at ht
    obtain ⟨i, hi, j, hj, _hij, k, hk, hik, hcase⟩ := ht
    have hi3 : i < 3 := by simpa using hi
    have hk3 : k < 3 :=
      by simpa using (mem_neighborCands.mp (neighborsOf_subset_cands hk)).1
    have hikd : dist3 (ptAt [p0, p1, p2] i) (ptAt [p0, p1, p2] k) <
        thr * (patchRadius (areaAt [a, a, a] i) +
               patchRadius (areaAt [a, a, a] k)) := by
      rcases hcase with ⟨⟨_, h⟩, _⟩ | ⟨⟨_, h⟩, _⟩ <;> exact h
    rw [dall i k hi3 hk3 hik, aall i hi3, aall k hk3] at hikd
    have hr2 : patchRadius a + patchRadius a = 2 * patchRadius a := by ring
    rw [hr2] at hikd
    exact hikd
  · intro hs
    rw [mem_build_faces]
    have hcond : ∀ x y : ℕ, x < 3 → y < 3 → ¬ x = y →
        dist3 (ptAt [p0, p1, p2] x) (ptAt [p0, p1, p2] y) <
          thr * (patchRadius (areaAt [a, a, a] x) +
                 patchRadius (areaAt [a, a, a] y)) := by
      intro x y hx hy hxy
      rw [dall x y hx hy hxy, aall x hx, aall y hy]
      have hr2 : patchRadius a + patchRadius a = 2 * patchRadius a := by ring
      rw [hr2]
      exact hs
    exact ⟨0, by norm_num, 1, hmem 0 1 (by norm_num) (by norm_num),
      by norm_num, 2, hmem 1 2 (by norm_num) (by norm_num), by norm_num,
      Or.inl ⟨⟨hcond 0 1 (by norm_num) (by norm_num) (by norm_num),
              hcond 0 2 (by norm_num) (by norm_num) (by norm_num)⟩, by decide⟩⟩

lemma dist3_E0_E1 : dist3 ((1:ℝ), 1, 0) ((1:ℝ), 0, 1) = Real.sqrt 2 := by
  unfold dist3
  norm_num

lemma dist3_E0_E2 : dist3 ((1:ℝ), 1, 0) ((0:ℝ), 1, 1) = Real.sqrt 2 := by
  unfold dist3
  norm_num

lemma dist3_E1_E2 : dist3 ((1:ℝ), 0, 1) ((0:ℝ), 1, 1) = Real.sqrt 2 := by
  unfold dist3
  norm_num

lemma one_lt_sqrt_two : (1:ℝ) < Real.sqrt 2 :=
  (Real.lt_sqrt (by norm_num)).mpr (by norm_num)

/-- Claim C8, counterexample to the unconditional statement: the equilateral
    triple `(1,1,0)`, `(1,0,1)`, `(0,1,1)` of side `s = sqrt 2` with equal
    areas `1` and owners, under `neighbor_radius = 1 < s`,
    `neighbors_threshold = 10`: the threshold condition
    `threshold * 2r > s` holds, yet no triangle is produced, because no point
    is inside another's neighbor radius. -/
theorem build_faces_equilateral_needs_radius :
    Real.sqrt 2 < 10 * (2 * patchRadius 1) ∧
    (((0, 1, 2) : ℕ × ℕ × ℕ) ∉
      build_faces [((1:ℝ), 1, 0), ((1:ℝ), 0, 1), ((0:ℝ), 1, 1)]
        [1, 1, 1] [1, 1, 1] 1 10 10) := by
  constructor
  · have hr : (1:ℝ)/2 ≤ patchRadius 1 := by
      unfold patchRadius
      rw [Real.le_sqrt (by norm_num) (by positivity)]
      rw [show ((1:ℝ)/2) ^ 2 = 1/4 by norm_num,
        div_le_div_iff₀ (by norm_num) Real.pi_pos]
      nlinarith [Real.pi_le_four]
    nlinarith [sqrt_two_le_two]
  · intro ht
    rw [mem_build_faces] at ht
    obtain ⟨i, hi, j, hj, hij, _k, _hk, _hik, _hcase⟩ := ht
    have hi3 : i < 3 := by simpa using hi
    have hjc := mem_neighborCands.mp (neighborsOf_subset_cands hj)
    have hj3 : j < 3 := by simpa using hjc.1
    have hdist := hjc.2.1
    have heq : dist3 (ptAt [((1:ℝ), 1, 0), ((1:ℝ), 0, 1), ((0:ℝ), 1, 1)] i)
        (ptAt [((1:ℝ), 1, 0), ((1:ℝ), 0, 1), ((0:ℝ), 1, 1)] j) = Real.sqrt 2 := by
      interval_cases i <;> interval_cases j
      · exact absurd rfl hij
      · exact dist3_E0_E1
      · exact dist3_E0_E2
      · exact (dist3_symm _ _).trans dist3_E0_E1
      · exact absurd rfl hij
      · exact dist3_E1_E2
      · exact (dist3_symm _ _).trans dist3_E0_E2
      · exact (dist3_symm _ _).trans dist3_E1_E2
      · exact absurd rfl hij
    rw [heq] at hdist
    exact absurd hdist (not_le.mpr one_lt_sqrt_two)

/-- Witness for the amended C8 at a concrete equilateral input whose side
    `sqrt 2` is inside the neighbor radius `2`. -/
theorem build_faces_equilateral_iff_witness :
    (((0, 1, 2) : ℕ × ℕ × ℕ) ∈
        build_faces [((1:ℝ), 1, 0), ((1:ℝ), 0, 1), ((0:ℝ), 1, 1)]
          [10, 10, 10] [1, 1, 1] 2 10 2) ↔
      Real.sqrt 2 < 2 * (2 * patchRadius 10) :=
  build_faces_equilateral_iff ((1:ℝ), 1, 0) ((1:ℝ), 0, 1) ((0:ℝ), 1, 1) 10 1
    (Real.sqrt 2) 2 2 10 dist3_E0_E1 dist3_E0_E2 dist3_E1_E2 sqrt_two_le_two
    (by norm_num)

/-! ## Basic facts about the embedded color mapper -/

/-- Every successful run of `map_colors` maps each flattened value through
    normalization against some resolved bounds, colormap lookup and
    quantization, in input order. -/
lemma map_colors_eq_some {cm : Colormap} {values : NDArray}
    {v1 v2 : Option ℚ} {robust : Bool} {pct : ℚ} {l : List (ℕ × ℕ × ℕ)}
    (h : map_colors cm values v1 v2 robust pct = some l) :
    ∃ vmin vmax : ℚ, l = values.data.map (fun v =>
      quantizeTriple (cm (clamp01 ((v - vmin) / (vmax - vmin))))) := by
  simp only [map_colors] at h
  cases hres : resolveBounds values.data v1 v2 robust pct with
  | none =>
    rw [hres] at h
    exact absurd h (by simp)
  | some b =>
    rw [hres] at h
    obtain ⟨vmin, vmax⟩ := b
    simp only [Option.some.injEq] at h
    exact ⟨vmin, vmax, h.symm⟩

/-- On a non-empty data list the bound resolution always succeeds. -/
lemma resolveBounds_some_of_ne_nil (vals : List ℚ) (v1 v2 : Option ℚ)
    (robust : Bool) (pct : ℚ) (hd : vals ≠ []) :
    ∃ b, resolveBounds vals v1 v2 robust pct = some b := by
  unfold resolveBounds
  by_cases h1 : (robust = true ∧ (v1.isNone ∨ v2.isNone))
  · rw [if_pos h1, if_neg hd]
    exact ⟨_, rfl⟩
  · rw [if_neg h1]
    cases v1 with
    | some a =>
      cases v2 with
      | some b => exact ⟨_, rfl⟩
      | none =>
        simp only [if_neg hd]
        exact ⟨_, rfl⟩
    | none =>
      cases v2 with
      | some b =>
        simp only [if_neg hd]
        exact ⟨_, rfl⟩
      | none =>
        simp only [if_neg hd]
        exact ⟨_, rfl⟩

/-- On a non-empty data list every branch of `map_colors` succeeds, with one
    output triple per flattened entry. -/
lemma map_colors_some_of_ne_nil (cm : Colormap) (values : NDArray)
    (v1 v2 : Option ℚ) (robust : Bool) (pct : ℚ) (hd : values.data ≠ []) :
    ∃ l, map_colors cm values v1 v2 robust pct = some l ∧
      l.length = values.data.length := by
  obtain ⟨b, hb⟩ := resolveBounds_some_of_ne_nil values.data v1 v2 robust pct hd
  obtain ⟨vmin, vmax⟩ := b
  simp only [map_colors]
  rw [hb]
  exact ⟨_, rfl, List.length_map _ _⟩

/-! ## Concrete color-mapper evaluations -/

lemma listMin_gray : listMin [0, (4:ℚ)/7, 1] = 0 := by
  unfold listMin
  simp only [List.foldl]
  rw [min_eq_left (by norm_num), min_eq_left (by norm_num)]

lemma listMax_gray : listMax [0, (4:ℚ)/7, 1] = 1 := by
  unfold listMax
  simp only [List.foldl]
  rw [max_eq_right (by norm_num)]

lemma resolveBounds_gray :
    resolveBounds [0, (4:ℚ)/7, 1] none none false 1 = some (0, 1) := by
  simp only [resolveBounds]
  rw [if_neg (by simp)]
  simp only [listMin_gray, listMax_gray]
  have hne : ¬ ([0, (4:ℚ)/7, 1] = []) := by simp
  rw [if_neg hne, if_neg hne]
  norm_num

lemma quantizeChannel_zero : quantizeChannel 0 = 0 := by
  unfold quantizeChannel truncTowardZero
  norm_num

lemma quantizeChannel_one : quantizeChannel 1 = 255 := by
  unfold quantizeChannel truncTowardZero
  rw [if_pos (by norm_num), show ⌊(1:ℚ) * 255⌋ = (255:ℤ) by norm_num]
  decide

lemma floor_47_255 : ⌊((4:ℚ)/7) * 255⌋ = (145:ℤ) := by
  rw [show ((4:ℚ)/7) * 255 = 1020/7 by norm_num, Int.floor_eq_iff]
  norm_num

lemma quantizeChannel_47 : quantizeChannel ((4:ℚ)/7) = 145 := by
  unfold quantizeChannel truncTowardZero
  rw [if_pos (by norm_num), floor_47_255]
  decide

lemma round_47_255 : round (((4:ℚ)/7) * 255) = 146 := by
  rw [show ((4:ℚ)/7) * 255 = 1020/7 by norm_num, round_eq,
    show ((1020:ℚ)/7 + 1/2) = 2047/14 by norm_num, Int.floor_eq_iff]
  norm_num

/-- Shared evaluation: the gray colormap over `[0, 4/7, 1]` with default
    bounds: the middle value sits at position `4/7`, whose channel value
    `4/7 * 255 = 145.71...` is stored as `145`. -/
lemma map_colors_gray_eval :
    map_colors grayColormap ⟨[3], [0, (4:ℚ)/7, 1]⟩ none none false 1 =
      some [(0, 0, 0), (145, 145, 145), (255, 255, 255)] := by
  simp only [map_colors]
  rw [resolveBounds_gray]
  simp only [List.map]
  have e0 : clamp01 (((0:ℚ) - 0) / (1 - 0)) = 0 := by
    norm_num [clamp01, min_def, max_def]
  have e1 : clamp01 ((((4:ℚ)/7) - 0) / (1 - 0)) = 4/7 := by
    norm_num [clamp01, min_def, max_def]
  have e2 : clamp01 (((1:ℚ) - 0) / (1 - 0)) = 1 := by
    norm_num [clamp01, min_def, max_def]
  rw [e0, e1, e2]
  simp only [grayColormap, quantizeTriple]
  rw [quantizeChannel_zero, quantizeChannel_47, quantizeChannel_one]

/-! ## Claim theorems for the color mapper -/

/-- Claim C2, counterexample to round-to-nearest quantization: on
    `[0, 4/7, 1]` with default bounds and the gray colormap, the middle
    channel value `4/7 * 255 ≈ 145.71` is stored as `145` (truncation), while
    rounding to the nearest integer would give `146`. -/
theorem map_colors_truncates_not_rounds :
    map_colors grayColormap ⟨[3], [0, (4:ℚ)/7, 1]⟩ none none false 1 =
      some [(0, 0, 0), (145, 145, 145), (255, 255, 255)] ∧
    round (((4:ℚ)/7) * 255) = 146 ∧ (145 : ℤ) ≠ 146 :=
  ⟨map_colors_gray_eval, round_47_255, by decide⟩

/-- Claim C2, amended: `map_colors` quantizes each channel by multiplying by
    255 and truncating toward zero — the floor, on the nonnegative colormap
    range — not by rounding; for colormap channels in `[0,1]` every stored
    channel is `⌊c * 255⌋` and lies in `[0, 255]`, so the `uint8` cast never
    wraps. -/
theorem map_colors_quantizes_by_truncation (cm : Colormap)
    (hcm : ∀ x : ℚ, 0 ≤ x → x ≤ 1 →
      (0 ≤ (cm x).1 ∧ (cm x).1 ≤ 1) ∧ (0 ≤ (cm x).2.1 ∧ (cm x).2.1 ≤ 1) ∧
      (0 ≤ (cm x).2.2 ∧ (cm x).2.2 ≤ 1))
    (values : NDArray) (v1 v2 : Option ℚ) (robust : Bool) (pct : ℚ)
    (l : List (ℕ × ℕ × ℕ)) (hl : map_colors cm values v1 v2 robust pct = some l)
    (t : ℕ × ℕ × ℕ) (ht : t ∈ l) :
    ∃ x : ℚ, 0 ≤ x ∧ x ≤ 1 ∧
      t = (Int.toNat ⌊(cm x).1 * 255⌋, Int.toNat ⌊(cm x).2.1 * 255⌋,
           Int.toNat ⌊(cm x).2.2 * 255⌋) ∧
      t.1 ≤ 255 ∧ t.2.1 ≤ 255 ∧ t.2.2 ≤ 255 := by
  have chan : ∀ c : ℚ, 0 ≤ c → c ≤ 1 →
      quantizeChannel c = Int.toNat ⌊c * 255⌋ ∧ Int.toNat ⌊c * 255⌋ ≤ 255 := by
    intro c h0 h1
    unfold quantizeChannel truncTowardZero
    rw [if_pos (mul_nonneg h0 (by norm_num))]
    have hfl0 : 0 ≤ ⌊c * 255⌋ :=
      Int.floor_nonneg.mpr (mul_nonneg h0 (by norm_num))
    have hfl255 : ⌊c * 255⌋ ≤ 255 := by
      have hle : c * 255 ≤ 255 := by nlinarith
      calc ⌊c * 255⌋ ≤ ⌊(255:ℚ)⌋ := Int.floor_le_floor hle
        _ = 255 := by norm_num
    rw [Int.emod_eq_of_lt hfl0 (by omega)]
    exact ⟨rfl, by omega⟩
  obtain ⟨vmin, vmax, rfl⟩ := map_colors_eq_some hl
  rw [List.mem_map] at ht
  obtain ⟨v, _hv, rfl⟩ := ht
  set x := clamp01 ((v - vmin) / (vmax - vmin)) with hx
  have hx0 : 0 ≤ x := le_max_left _ _
  have hx1 : x ≤ 1 := max_le (by norm_num) (min_le_left _ _)
  obtain ⟨⟨ha0, ha1⟩, ⟨hb0, hb1⟩, ⟨hc0, hc1⟩⟩ := hcm x hx0 hx1
  obtain ⟨e1, b1⟩ := chan _ ha0 ha1
  obtain ⟨e2, b2⟩ := chan _ hb0 hb1
  obtain ⟨e3, b3⟩ := chan _ hc0 hc1
  have htr : quantizeTriple (cm x) =
      (Int.toNat ⌊(cm x).1 * 255⌋, Int.toNat ⌊(cm x).2.1 * 255⌋,
       Int.toNat ⌊(cm x).2.2 * 255⌋) := by
    unfold quantizeTriple
    rw [e1, e2, e3]
  refine ⟨x, hx0, hx1, htr, ?_, ?_, ?_⟩
  · rw [htr]
    exact b1
  · rw [htr]
    exact b2
  · rw [htr]
    exact b3

/-- Witness for the amended C2 at the gray colormap on `[0, 4/7, 1]` and the
    middle output triple. -/
theorem map_colors_quantizes_by_truncation_witness :
    ∃ x : ℚ, 0 ≤ x ∧ x ≤ 1 ∧
      ((145, 145, 145) : ℕ × ℕ × ℕ) =
        (Int.toNat ⌊(grayColormap x).1 * 255⌋,
         Int.toNat ⌊(grayColormap x).2.1 * 255⌋,
         Int.toNat ⌊(grayColormap x).2.2 * 255⌋) ∧
      ((145, 145, 145) : ℕ × ℕ × ℕ).1 ≤ 255 ∧
      ((145, 145, 145) : ℕ × ℕ × ℕ).2.1 ≤ 255 ∧
      ((145, 145, 145) : ℕ × ℕ × ℕ).2.2 ≤ 255 :=
  map_colors_quantizes_by_truncation grayColormap
    (fun _x h0 h1 => ⟨⟨h0, h1⟩, ⟨h0, h1⟩, ⟨h0, h1⟩⟩)
    ⟨[3], [0, (4:ℚ)/7, 1]⟩ none none false 1
    [(0, 0, 0), (145, 145, 145), (255, 255, 255)] map_colors_gray_eval
    (145, 145, 145) (by simp)

/-- Claim C3, counterexample: with `vmin` and `vmax` left unset (and
    `robust=False`), an empty values array does not yield an empty
    ColorTable — `vals.min()` over the empty array raises, modelled as
    `none`. -/
theorem map_colors_empty_default_raises :
    map_colors grayColormap ⟨[0], ([] : List ℚ)⟩ none none false 1 = none ∧
    map_colors grayColormap ⟨[0], ([] : List ℚ)⟩ none none false 1 ≠
      some [] := by
  have h0 : map_colors grayColormap ⟨[0], ([] : List ℚ)⟩ none none false 1 =
      none := rfl
  refine ⟨h0, ?_⟩
  rw [h0]
  simp

/-- Claim C3, amended: an empty values array yields an empty ColorTable when
    both `vmin` and `vmax` are explicitly provided (no reduction over the
    empty array runs), for every `robust`/`robust_pct` setting and shape. -/
theorem map_colors_empty_with_bounds (cm : Colormap) (sh : List ℕ)
    (v1 v2 : ℚ) (robust : Bool) (pct : ℚ) :
    map_colors cm ⟨sh, []⟩ (some v1) (some v2) robust pct = some [] := by
  simp only [map_colors]
  have hres : resolveBounds [] (some v1) (some v2) robust pct =
      some (v1, if v1 = v2 then v1 + 1 / 10 ^ 12 else v2) := by
    simp only [resolveBounds]
    rw [if_neg (by simp)]
  rw [hres]
  simp

/-- Claim C9: `map_colors` flattens its input first — the result only depends
    on the row-major entries, not the shape — and on any non-empty input it
    succeeds with one RGB triple per element of the flattened array, in
    flattened order (a map over the flat entries against the resolved
    bounds). -/
theorem map_colors_flattens (cm : Colormap) (sh : List ℕ) (d : List ℚ)
    (v1 v2 : Option ℚ) (robust : Bool) (pct : ℚ) (hd : d ≠ []) :
    map_colors cm ⟨sh, d⟩ v1 v2 robust pct =
      map_colors cm ⟨[d.length], d⟩ v1 v2 robust pct ∧
    (∃ l, map_colors cm ⟨sh, d⟩ v1 v2 robust pct = some l ∧
      l.length = d.length) ∧
    ∃ vmin vmax : ℚ, map_colors cm ⟨sh, d⟩ v1 v2 robust pct =
      some (d.map (fun v =>
        quantizeTriple (cm (clamp01 ((v - vmin) / (vmax - vmin)))))) := by
  obtain ⟨l, hl, hlen⟩ := map_colors_some_of_ne_nil cm ⟨sh, d⟩ v1 v2 robust pct hd
  obtain ⟨vmin, vmax, hmap⟩ := map_colors_eq_some hl
  exact ⟨rfl, ⟨l, hl, hlen⟩, vmin, vmax, by rw [hl, hmap]⟩

/-- Witness for C9 on a 3×1-shaped array. -/
theorem map_colors_flattens_witness :
    map_colors grayColormap ⟨[3, 1], [0, (4:ℚ)/7, 1]⟩ none none false 1 =
      map_colors grayColormap ⟨[([0, (4:ℚ)/7, 1] : List ℚ).length],
        [0, (4:ℚ)/7, 1]⟩ none none false 1 ∧
    (∃ l, map_colors grayColormap ⟨[3, 1], [0, (4:ℚ)/7, 1]⟩ none none false 1 =
      some l ∧ l.length = ([0, (4:ℚ)/7, 1] : List ℚ).length) ∧
    ∃ vmin vmax : ℚ,
      map_colors grayColormap ⟨[3, 1], [0, (4:ℚ)/7, 1]⟩ none none false 1 =
        some (([0, (4:ℚ)/7, 1] : List ℚ).map (fun v =>
          quantizeTriple (grayColormap (clamp01 ((v - vmin) / (vmax - vmin)))))) :=
  map_colors_flattens grayColormap [3, 1] [0, (4:ℚ)/7, 1] none none false 1
    (by simp)

/-! ## Claim theorems for the per-file pipeline -/

/-- Claim C4, counterexample: with the unrecognized selector `"foo"`, the
    per-file pipeline does raise a descriptive `ValueError` and never
    defaults, but only after `build_faces` has already run — the selector is
    dispatched inside the per-file loop, after mesh construction, not before
    any computation. -/
theorem processOne_checks_selector_after_mesh :
    (processOne "foo" 1 15 (3/2) none none grayColormap false 1
        [(0, 0, 0)] [0] [0] [1] [1]).2 =
      Except.error "Unsupported color_by option: foo" ∧
    PipelineStage.buildFacesStage ∈
      (processOne "foo" 1 15 (3/2) none none grayColormap false 1
        [(0, 0, 0)] [0] [0] [1] [1]).1 := by
  have h : processOne "foo" 1 15 (3/2) none none grayColormap false 1
      [(0, 0, 0)] [0] [0] [1] [1] =
      ([PipelineStage.buildFacesStage],
       Except.error "Unsupported color_by option: foo") := by
    have hsel : selectValues "foo" [0] [0] [1] = none := rfl
    simp only [processOne]
    rw [hsel]
    rfl
  rw [h]
  exact ⟨rfl, by simp⟩

/-- Claim C4, amended: an unrecognized `color_by` selector is never silently
    defaulted — the per-file pipeline stops with the descriptive error
    `"Unsupported color_by option: ..."` right after mesh construction and
    before color mapping or serialization (the recorded stages are exactly
    `[buildFaces]`). -/
theorem processOne_unrecognized_raises (color_by : String) (nr : ℚ) (mn : ℕ)
    (nt : ℚ) (v1 v2 : Option ℚ) (cm : Colormap) (robust : Bool) (pct : ℚ)
    (points : List (ℚ × ℚ × ℚ)) (charges potentials areas : List ℚ)
    (owners : List ℤ)
    (h : selectValues color_by charges potentials areas = none) :
    processOne color_by nr mn nt v1 v2 cm robust pct points charges
        potentials areas owners =
      ([PipelineStage.buildFacesStage],
       Except.error ("Unsupported color_by option: " ++ color_by)) := by
  simp only [processOne]
  rw [h]

/-- Witness for the amended C4 at the selector `"foo"`. -/
theorem processOne_unrecognized_raises_witness :
    processOne "foo" 1 15 (3/2) none none grayColormap false 1
        [(0, 0, 0)] [0] [0] [1] [1] =
      ([PipelineStage.buildFacesStage],
       Except.error ("Unsupported color_by option: " ++ "foo")) :=
  processOne_unrecognized_raises "foo" 1 15 (3/2) none none grayColormap
    false 1 [(0, 0, 0)] [0] [0] [1] [1] rfl

end CosmoSurfaceViewer
